import Mathlib

/-!
Verification of the react-native-remodal core (src/index.tsx): the dialog
registry owned by `ReModalProvider` and the reanimated-style transition
engine built by `runOpacityTimer`.

The registry is a shallow embedding of the provider's three JS objects
(`views`, `configs.current`, `visibleView.current`): JS objects are modelled
as insertion-ordered association lists, where updating an existing key
replaces its value in place and a fresh key is appended at the end (the
semantics of the spread `{ ...obj, [key]: value }` under unique keys).
Renderable content and callbacks are opaque to the core, so they are
modelled as `Option Nat` tokens.
-/

namespace ReModal

abbrev Key := String

/-- JS object update `{ ...l, [k]: v }`: replace the value at the first
occurrence of `k` in place, or append `(k, v)` when `k` is absent. -/
def objSet {α : Type} : List (Key × α) → Key → α → List (Key × α)
  | [], k, v => [(k, v)]
  | p :: rest, k, v => if p.1 = k then (k, v) :: rest else p :: objSet rest k v

/-- JS property read `l[k]`: value at the first occurrence of `k`, if any. -/
def objGet {α : Type} : List (Key × α) → Key → Option α
  | [], _ => none
  | p :: rest, k => if p.1 = k then some p.2 else objGet rest k

theorem objGet_objSet_self {α : Type} (l : List (Key × α)) (k : Key) (v : α) :
    objGet (objSet l k v) k = some v := by
  induction l with
  | nil => simp [objSet, objGet]
  | cons p rest ih =>
    by_cases h : p.1 = k <;> simp [objSet, objGet, h, ih]

theorem objGet_objSet_other {α : Type} (l : List (Key × α)) (k k' : Key) (v : α)
    (h : k' ≠ k) : objGet (objSet l k v) k' = objGet l k' := by
  induction l with
  | nil => simp [objSet, objGet, h, Ne.symm h]
  | cons p rest ih =>
    by_cases hp : p.1 = k
    · subst hp
      simp [objSet, objGet, Ne.symm h]
    · simp only [objSet, if_neg hp]
      by_cases hp' : p.1 = k' <;> simp [objGet, hp', ih]

theorem mem_objSet_self {α : Type} (l : List (Key × α)) (k : Key) (v : α) :
    (k, v) ∈ objSet l k v := by
  induction l with
  | nil => simp [objSet]
  | cons p rest ih =>
    by_cases h : p.1 = k <;> simp [objSet, h, ih]

/-- The per-dialog configuration record stored by `setConfig` (the
`IReModalProps` rest object): callbacks are opaque tokens, presence/absence
mirrors JS `undefined`. -/
structure DialogConfig where
  onCancel : Option Nat
  autoCloseWhenOpeningNextDialog : Option Bool
  onModalShow : Option Nat
  onModalHide : Option Nat
  deriving Repr, DecidableEq

def emptyConfig : DialogConfig :=
  { onCancel := none, autoCloseWhenOpeningNextDialog := none,
    onModalShow := none, onModalHide := none }

/-- The provider-owned registry: `views` (content per key, where a key may be
present with `undefined` content), `configs.current`, `visibleView.current`. -/
structure RegistryState where
  views : List (Key × Option Nat)
  configs : List (Key × DialogConfig)
  visibleView : List (Key × Bool)
  deriving Repr, DecidableEq

/-- `const [currentView] = Object.entries(visibleView.current).find(([_, v]) => v) || []`:
the first key, in insertion order, whose visibility flag is true. -/
def currentView (s : RegistryState) : Option Key :=
  (s.visibleView.find? (fun p => p.2)).map Prod.fst

/-- `selectedView = (key) => (key && configs.current[key]) || {}`: the stored
configuration for `key`, or the empty record when the key is absent, empty,
or has no configuration. -/
def selectedView (s : RegistryState) (key : Option Key) : DialogConfig :=
  match key with
  | none => emptyConfig
  | some k => if k = "" then emptyConfig else (objGet s.configs k).getD emptyConfig

/-- Observable actions taken by a registry operation, in program order:
invoking a stored `onCancel` callback, and writing a visibility flag. -/
inductive RegEvent where
  | cancelCall (cb : Nat)
  | visSet (key : Key) (visible : Bool)
  deriving Repr, DecidableEq

/-- `setView` of the provider context: `setViews(views => ({ ...views, [key]: view }))`.
Clearing stores `undefined` under the key; the key itself stays present. -/
def setView (s : RegistryState) (key : Key) (view : Option Nat) : RegistryState :=
  { s with views := objSet s.views key view }

/-- `setConfig`: `configs.current = { ...configs.current, [key]: config }`. -/
def setConfig (s : RegistryState) (key : Key) (config : DialogConfig) : RegistryState :=
  { s with configs := objSet s.configs key config }

/-- `setVisible`: when opening, first look up the currently visible dialog's
configuration and invoke its `onCancel` if both `onCancel` and
`autoCloseWhenOpeningNextDialog` are truthy; then write the visibility flag.
The returned event list records the invoked callbacks and the write, in
program order. -/
def setVisible (s : RegistryState) (key : Key) (visible : Bool) :
    RegistryState × List RegEvent :=
  let cancels : List RegEvent :=
    if visible then
      match (selectedView s (currentView s)).onCancel,
            (selectedView s (currentView s)).autoCloseWhenOpeningNextDialog with
      | some f, some true => [RegEvent.cancelCall f]
      | _, _ => []
    else []
  ({ s with visibleView := objSet s.visibleView key visible },
    cancels ++ [RegEvent.visSet key visible])

/-- One overlay entry produced by the provider render: the `Modal` element
rendered for a `views` entry, with `isVisible = visibleView.current[key]`
(JS `undefined` is falsy) and the lazily selected configuration. -/
structure RenderedModal where
  key : Key
  content : Option Nat
  isVisible : Bool
  config : DialogConfig
  deriving Repr, DecidableEq

/-- The provider's overlay list: `Object.entries(views).map(...)`, one
`Modal` per entry of the content table (whether or not its content is
defined). -/
def providerRender (s : RegistryState) : List RenderedModal :=
  s.views.map (fun p =>
    { key := p.1, content := p.2,
      isVisible := (objGet s.visibleView p.1).getD false,
      config := selectedView s (some p.1) })

/-- The cleanup effects run when a `ReModal` declaration unmounts, in
declaration order: `setVisible(id, false)` then `setView(id, undefined)`.
The configuration effect has no cleanup. -/
def unmountModal (s : RegistryState) (id : Key) : RegistryState × List RegEvent :=
  let r := setVisible s id false
  (setView r.1 id none, r.2)

def mountCheckMsg : String :=
  "<ReModal/> is placed outside of a <ReModalProvider/>. Make sure <ReModalProvider/> is wrapping your root component."

/-- The mount-time context check of `ReModal`: with no enclosing provider the
context is the default empty object, `setView` is undefined, and the
component throws; otherwise it proceeds. -/
def mountCheck (hasProviderContext : Bool) : Except String Unit :=
  if hasProviderContext then Except.ok () else Except.error mountCheckMsg

/-! ### Registry claims -/

/-- Claim C1: if `A` is the currently visible dialog, its configuration has
`onCancel = f` and `autoCloseWhenOpeningNextDialog = true`, and `B ≠ A` is
hidden, then `setVisible(B, true)` invokes `f` exactly once, before the
visibility flag of `B` is written to true (the event trace is exactly the
cancel call followed by the write); with
`autoCloseWhenOpeningNextDialog = false`, `f` is never invoked by this call. -/
theorem setVisible_autoCloses_current (s : RegistryState) (A B : Key) (f : Nat)
    (hA : currentView s = some A)
    (hf : (selectedView s (some A)).onCancel = some f)
    (hAB : A ≠ B)
    (hB : objGet s.visibleView B ≠ some true) :
    ((selectedView s (some A)).autoCloseWhenOpeningNextDialog = some true →
      (setVisible s B true).2 = [RegEvent.cancelCall f, RegEvent.visSet B true] ∧
      objGet (setVisible s B true).1.visibleView B = some true) ∧
    ((selectedView s (some A)).autoCloseWhenOpeningNextDialog = some false →
      (setVisible s B true).2 = [RegEvent.visSet B true]) := by
  constructor <;> intro hac <;>
    simp [setVisible, hA, hf, hac, objGet_objSet_self]

theorem setVisible_autoCloses_current_witness :
    let s : RegistryState :=
      { views := [("a", some 7)],
        configs := [("a", { onCancel := some 3,
                            autoCloseWhenOpeningNextDialog := some true,
                            onModalShow := none, onModalHide := none })],
        visibleView := [("a", true)] }
    (setVisible s "b" true).2 = [RegEvent.cancelCall 3, RegEvent.visSet "b" true] ∧
      objGet (setVisible s "b" true).1.visibleView "b" = some true :=
  (setVisible_autoCloses_current _ "a" "b" 3 (by decide) (by decide) (by decide)
    (by decide)).1 (by decide)

/-- Claim C10: the auto-close lookup in `setVisible` does not exclude the
dialog being opened; if `id` is itself the currently visible dialog with
`onCancel = f` and `autoCloseWhenOpeningNextDialog = true`, then
`setVisible(id, true)` invokes `id`'s own `onCancel`. -/
theorem setVisible_self_autoClose (s : RegistryState) (id : Key) (f : Nat)
    (hA : currentView s = some id)
    (hf : (selectedView s (some id)).onCancel = some f)
    (hac : (selectedView s (some id)).autoCloseWhenOpeningNextDialog = some true) :
    (setVisible s id true).2 = [RegEvent.cancelCall f, RegEvent.visSet id true] := by
  simp [setVisible, hA, hf, hac]

theorem setVisible_self_autoClose_witness :
    let s : RegistryState :=
      { views := [("a", some 7)],
        configs := [("a", { onCancel := some 3,
                            autoCloseWhenOpeningNextDialog := some true,
                            onModalShow := none, onModalHide := none })],
        visibleView := [("a", true)] }
    (setVisible s "a" true).2 = [RegEvent.cancelCall 3, RegEvent.visSet "a" true] :=
  setVisible_self_autoClose _ "a" 3 (by decide) (by decide) (by decide)

/-- Claim C8: `setConfig` replaces the stored configuration for `id`
wholesale — the stored record after the call is exactly the new one,
whatever was stored before — and every other identity's stored
configuration is untouched. -/
theorem setConfig_replaces_wholesale (s : RegistryState) (k : Key) (c : DialogConfig) :
    objGet (setConfig s k c).configs k = some c ∧
    ∀ k', k' ≠ k → objGet (setConfig s k c).configs k' = objGet s.configs k' := by
  refine ⟨objGet_objSet_self _ _ _, fun k' hk => ?_⟩
  exact objGet_objSet_other _ _ _ _ hk

theorem setConfig_replaces_wholesale_witness :
    objGet (setConfig { views := [], configs := [("a", emptyConfig)], visibleView := [] }
        "a" { onCancel := some 1, autoCloseWhenOpeningNextDialog := some false,
              onModalShow := none, onModalHide := none }).configs "a" =
      some { onCancel := some 1, autoCloseWhenOpeningNextDialog := some false,
             onModalShow := none, onModalHide := none } ∧
    objGet (setConfig { views := [], configs := [("a", emptyConfig)], visibleView := [] }
        "a" { onCancel := some 1, autoCloseWhenOpeningNextDialog := some false,
              onModalShow := none, onModalHide := none }).configs "b" =
      objGet ({ views := [], configs := [("a", emptyConfig)],
                visibleView := [] } : RegistryState).configs "b" :=
  ⟨(setConfig_replaces_wholesale _ "a" _).1,
   (setConfig_replaces_wholesale _ "a" _).2 "b" (by decide)⟩

/-- Claim C7: declaring a `ReModal` outside a provider throws the usage error
synchronously at mount (the default context has no `setView`), a mount inside
a provider does not, and the registry operations are total on any identity:
an unknown identity is implicitly created, with the written value readable
back, and no operation can fail. -/
theorem mount_error_and_total_ops :
    mountCheck false = Except.error mountCheckMsg ∧
    mountCheck true = Except.ok () ∧
    (∀ (s : RegistryState) (k : Key) (v : Bool),
      objGet (setVisible s k v).1.visibleView k = some v) ∧
    (∀ (s : RegistryState) (k : Key) (c : DialogConfig),
      objGet (setConfig s k c).configs k = some c) ∧
    (∀ (s : RegistryState) (k : Key) (w : Option Nat),
      objGet (setView s k w).views k = some w) := by
  refine ⟨rfl, rfl, fun s k v => ?_, fun s k c => ?_, fun s k w => ?_⟩ <;>
    simp [setVisible, setConfig, setView, objGet_objSet_self]

/-- Claim C5, counterexample: after unmounting dialog `"a"`, its
configuration is still stored in the registry, and the provider's overlay
list still contains an entry keyed `"a"` — the claim that identity,
configuration and visibility are all removed, and that the rendered overlay
set no longer includes the dialog, is false. -/
theorem unmount_leaves_config_and_key :
    objGet (unmountModal
        { views := [("a", some 7)],
          configs := [("a", { onCancel := some 3,
                              autoCloseWhenOpeningNextDialog := some true,
                              onModalShow := none, onModalHide := none })],
          visibleView := [("a", true)] } "a").1.configs "a" =
      some { onCancel := some 3, autoCloseWhenOpeningNextDialog := some true,
             onModalShow := none, onModalHide := none } ∧
    (providerRender (unmountModal
        { views := [("a", some 7)],
          configs := [("a", { onCancel := some 3,
                              autoCloseWhenOpeningNextDialog := some true,
                              onModalShow := none, onModalHide := none })],
          visibleView := [("a", true)] } "a").1).map (fun m => m.key) = ["a"] := by
  decide

/-- Claim C5, amended: when a `ReModal` declaration unmounts, its content is
set to absent and its visibility flag is reset to false, but the identity
remains a key of the content table (with absent content), the configuration
is retained unchanged, and the provider still renders an overlay entry for
the identity (with absent content and `isVisible = false`). -/
theorem unmount_resets_content_and_visibility (s : RegistryState) (id : Key) :
    objGet (unmountModal s id).1.views id = some none ∧
    objGet (unmountModal s id).1.visibleView id = some false ∧
    (unmountModal s id).1.configs = s.configs ∧
    (providerRender (unmountModal s id).1).any (fun m => m.key == id) = true := by
  refine ⟨?_, ?_, rfl, ?_⟩
  · simp [unmountModal, setView, setVisible, objGet_objSet_self]
  · simp [unmountModal, setView, setVisible, objGet_objSet_self]
  · simp only [List.any_eq_true]
    refine ⟨{ key := id, content := none,
              isVisible := (objGet (unmountModal s id).1.visibleView id).getD false,
              config := selectedView (unmountModal s id).1 (some id) }, ?_, by simp⟩
    simp only [providerRender, List.mem_map]
    exact ⟨(id, none), mem_objSet_self _ _ _, rfl⟩

/-!
### Transition engine

`runOpacityTimer` builds a reanimated block over persistent `Value` nodes
(`finished`, `position`, `time`, `frameTime`, the config's `toValue`
initialized to `-1`) and a `Clock`. The block is re-evaluated once per frame
while the clock is running, and once whenever the gesture-state `Value` is
assigned. We embed one evaluation of the block as a pure step function on
that state. The clock abstraction supplies the evaluation timestamp; the
inner `timing` node is the reanimated v1 timing update (elapsed frame time
accumulates; when it reaches the duration the position snaps to `toValue`
and `finished` is set, otherwise the position is interpolated through the
easing), with the easing an abstract function parameter since the bezier
`Easing.inOut(Easing.ease)` is a floating-point collaborator. Durations are
the source constants 300 (iOS) / 240 (other platforms). -/

/-- `State.BEGAN` from the source enum. -/
def BEGAN : Int := 0

/-- `State.END` from the source enum. -/
def END : Int := 1

/-- The persistent animation state of one `runOpacityTimer` instance. -/
structure EngineState where
  finished : Bool
  position : ℚ
  time : ℚ
  frameTime : ℚ
  toValue : ℚ
  clockRunning : Bool
  deriving Repr, DecidableEq

/-- Initial node values: `finished = 0`, `position = 0`, `time = 0`,
`frameTime = 0`, `toValue = -1`, clock not started. -/
def initEngine : EngineState :=
  { finished := false, position := 0, time := 0, frameTime := 0,
    toValue := -1, clockRunning := false }

/-- One evaluation of the reanimated v1 `timing` node at clock value `now`,
with duration `d` and easing `E`. -/
def timingStep (d : ℚ) (E : ℚ → ℚ) (now : ℚ) (s : EngineState) : EngineState :=
  let lastTime := if s.time ≠ 0 then s.time else now
  let newFrameTime := s.frameTime + (now - lastTime)
  if d ≤ newFrameTime then
    { s with position := s.toValue, finished := true,
             frameTime := newFrameTime, time := now }
  else
    let progress := E (s.frameTime / d)
    let nextProgress := E (newFrameTime / d)
    let distanceLeft := s.toValue - s.position
    let fullDistance := distanceLeft / (1 - progress)
    let startPosition := s.position - progress * fullDistance
    let nextPosition := startPosition + nextProgress * fullDistance
    { s with position := nextPosition, frameTime := newFrameTime, time := now }

/-- Completion callbacks invoked by the block. -/
inductive CbEvent where
  | show
  | hide
  deriving Repr, DecidableEq

/-- One evaluation of the block returned by `runOpacityTimer`, in source
order: the BEGAN restart cond (guarded by `toValue ≠ 1`), the END restart
cond (guarded by `toValue ≠ 0`), the `timing` node, `stopClock` under
`finished`, then the two completion-callback conds (`onModalShow` present
iff `hs`, `onModalHide` present iff `hh`). Returns the new state and the
callbacks invoked by this evaluation, in order. -/
def evalBlock (d : ℚ) (E : ℚ → ℚ) (hs hh : Bool) (gs : Int) (now : ℚ)
    (s : EngineState) : EngineState × List CbEvent :=
  let s1 := if gs = BEGAN ∧ s.toValue ≠ 1 then
      { s with finished := false, time := 0, frameTime := 0,
               toValue := 1, clockRunning := true }
    else s
  let s2 := if gs = END ∧ s1.toValue ≠ 0 then
      { s1 with finished := false, time := 0, frameTime := 0,
                toValue := 0, clockRunning := true }
    else s1
  let s3 := timingStep d E now s2
  let s4 := if s3.finished then { s3 with clockRunning := false } else s3
  (s4, (if hs ∧ s4.finished ∧ gs = BEGAN then [CbEvent.show] else []) ++
       (if hh ∧ s4.finished ∧ gs = END then [CbEvent.hide] else []))

/-- The block's final `interpolate` with `Extrapolate.CLAMP` over equal
input and output ranges `[0, 1]`: the rendered progress. -/
def opacityOutput (s : EngineState) : ℚ :=
  max 0 (min 1 s.position)

/-- One `Modal` renderer's animation driver: the gesture-state `Value`
(initialized to `-1`) together with its engine state. -/
structure DriverState where
  gs : Int
  eng : EngineState
  deriving Repr, DecidableEq

def initDriver : DriverState :=
  { gs := -1, eng := initEngine }

/-- Host scheduling events: an assignment of the gesture-state `Value`
(which re-evaluates the block), or an animation frame at a timestamp (which
re-evaluates the block only while the clock is running). -/
inductive SchedEvent where
  | setSignal (g : Int) (now : ℚ)
  | frame (now : ℚ)
  deriving Repr, DecidableEq

def evTime : SchedEvent → ℚ
  | SchedEvent.setSignal _ t => t
  | SchedEvent.frame t => t

def evSignal : SchedEvent → Option Int
  | SchedEvent.setSignal g _ => some g
  | SchedEvent.frame _ => none

/-- Process one scheduling event. -/
def schedStep (d : ℚ) (E : ℚ → ℚ) (hs hh : Bool) (st : DriverState) :
    SchedEvent → DriverState × List CbEvent
  | SchedEvent.setSignal g now =>
    let r := evalBlock d E hs hh g now st.eng
    ({ gs := g, eng := r.1 }, r.2)
  | SchedEvent.frame now =>
    if st.eng.clockRunning then
      let r := evalBlock d E hs hh st.gs now st.eng
      ({ gs := st.gs, eng := r.1 }, r.2)
    else (st, [])

/-- Process a list of scheduling events, accumulating the callback trace. -/
def runSched (d : ℚ) (E : ℚ → ℚ) (hs hh : Bool) :
    DriverState → List SchedEvent → DriverState × List CbEvent
  | st, [] => (st, [])
  | st, e :: rest =>
    let r := schedStep d E hs hh st e
    let r2 := runSched d E hs hh r.1 rest
    (r2.1, r.2 ++ r2.2)

/-- The `Modal` visibility effect body (lines 114-119): with the `init` ref
still false the assignment is skipped; afterwards the gesture state is set
to `BEGAN`/`END` from `isVisible`. Returns the emitted signal, if any, and
the new `init` flag. -/
def visEffect (initFlag : Bool) (isVisible : Bool) : Option Int × Bool :=
  (if initFlag then some (if isVisible then BEGAN else END) else none, true)

/-- Signals emitted over a render history: the effect has dependency
`[isVisible]`, so it runs exactly when the prop changes. -/
def visSignalsFrom (initFlag : Bool) : Bool → List Bool → List Int
  | _, [] => []
  | prev, v :: rest =>
    if v = prev then visSignalsFrom initFlag prev rest
    else ((visEffect initFlag v).1.toList) ++ visSignalsFrom (visEffect initFlag v).2 v rest

/-- Signals emitted by a `Modal` renderer mounted with prop `initial` whose
prop then takes the successive values `updates`: the mount run of the effect
is skipped by the `init` guard, every later change emits one signal. -/
def visSignals (initial : Bool) (updates : List Bool) : List Int :=
  (visEffect false initial).1.toList ++ visSignalsFrom (visEffect false initial).2 initial updates

/-- `pointerEvents={isVisible ? 'auto' : 'none'}` on the container. -/
def pointerEvents (isVisible : Bool) : String :=
  if isVisible then "auto" else "none"

/-- The timing target written by a signal: `1` for `BEGAN`, `0` otherwise. -/
def tgt (g : Int) : ℚ :=
  if g = BEGAN then 1 else 0

/-! ### Engine lemmas -/

theorem runSched_cons (d : ℚ) (E : ℚ → ℚ) (hs hh : Bool) (st : DriverState)
    (e : SchedEvent) (es : List SchedEvent) :
    runSched d E hs hh st (e :: es) =
      ((runSched d E hs hh (schedStep d E hs hh st e).1 es).1,
       (schedStep d E hs hh st e).2 ++
         (runSched d E hs hh (schedStep d E hs hh st e).1 es).2) := rfl

theorem runSched_append (d : ℚ) (E : ℚ → ℚ) (hs hh : Bool) :
    ∀ (l1 l2 : List SchedEvent) (st : DriverState),
      runSched d E hs hh st (l1 ++ l2) =
        ((runSched d E hs hh (runSched d E hs hh st l1).1 l2).1,
         (runSched d E hs hh st l1).2 ++ (runSched d E hs hh (runSched d E hs hh st l1).1 l2).2)
  | [], l2, st => by simp [runSched]
  | e :: rest, l2, st => by
    simp [runSched, runSched_append d E hs hh rest l2]

/-- While the clock is stopped, frame events do not evaluate the block: the
state is unchanged and no callback fires. -/
theorem runSched_frames_stopped (d : ℚ) (E : ℚ → ℚ) (hs hh : Bool) :
    ∀ (es : List SchedEvent) (st : DriverState),
      st.eng.clockRunning = false → (∀ e ∈ es, evSignal e = none) →
      runSched d E hs hh st es = (st, [])
  | [], st, _, _ => rfl
  | SchedEvent.setSignal g t :: rest, st, hrun, hes => by
    exact absurd (hes _ (List.mem_cons_self _ _)) (by simp [evSignal])
  | SchedEvent.frame t :: rest, st, hrun, hes => by
    have := runSched_frames_stopped d E hs hh rest st hrun
      (fun e he => hes e (List.mem_cons_of_mem _ he))
    simp [runSched, schedStep, hrun, this]

/-- A signal whose restart cond fires (target not yet equal to the signal's
target) resets `finished`, `time`, `frameTime`, sets the target, starts the
clock, and leaves the position exactly where it was; no callback fires. -/
theorem evalBlock_start (d : ℚ) (E : ℚ → ℚ) (hs hh : Bool) (g : Int) (now : ℚ)
    (s : EngineState) (hd : 0 < d) (hE0 : E 0 = 0)
    (hg : (g = BEGAN ∧ s.toValue ≠ 1) ∨ (g = END ∧ s.toValue ≠ 0)) :
    evalBlock d E hs hh g now s =
      ({ finished := false, position := s.position, time := now, frameTime := 0,
         toValue := tgt g, clockRunning := true }, []) := by
  rcases hg with ⟨hg, ht⟩ | ⟨hg, ht⟩ <;> subst hg <;>
    simp [evalBlock, timingStep, BEGAN, END, tgt, ht, hE0, hd.not_le]

/-- An in-flight, not-yet-finished timing run started by a signal at time
`t1`: elapsed frame time tracks the clock from `t1`. -/
structure RunningRun (g : Int) (t1 : ℚ) (s : EngineState) : Prop where
  finishedEq : s.finished = false
  toValueEq : s.toValue = tgt g
  runningEq : s.clockRunning = true
  frameTimeEq : s.frameTime = s.time - t1
  lowerLe : t1 ≤ s.time

theorem tgt_cases (g : Int) (hg : g = BEGAN ∨ g = END) :
    (g = BEGAN ∧ tgt g = 1) ∨ (g = END ∧ tgt g = 0) := by
  rcases hg with hg | hg <;> subst hg <;> simp [tgt, BEGAN, END]

/-- A frame before the duration has elapsed keeps the run in flight and
fires no callback. -/
theorem frame_running (d : ℚ) (E : ℚ → ℚ) (hs hh : Bool) (g : Int) (t1 : ℚ)
    (hg : g = BEGAN ∨ g = END) (ht1 : 0 < t1) (st : DriverState)
    (hr : RunningRun g t1 st.eng) (hgs : st.gs = g) (f : ℚ)
    (hf1 : st.eng.time < f) (hf2 : f < t1 + d) :
    RunningRun g t1 (schedStep d E hs hh st (SchedEvent.frame f)).1.eng ∧
    (schedStep d E hs hh st (SchedEvent.frame f)).1.gs = g ∧
    (schedStep d E hs hh st (SchedEvent.frame f)).1.eng.time = f ∧
    (schedStep d E hs hh st (SchedEvent.frame f)).2 = [] := by
  have htime : st.eng.time ≠ 0 := ne_of_gt (lt_of_lt_of_le ht1 hr.lowerLe)
  have hnf : st.eng.frameTime + (f - st.eng.time) = f - t1 := by
    rw [hr.frameTimeEq]; ring
  have hlt : ¬ d ≤ f - t1 := by
    intro h; exact absurd hf2 (not_lt.2 (by linarith))
  rcases tgt_cases g hg with ⟨hgv, htv⟩ | ⟨hgv, htv⟩ <;> subst hgv <;>
  · constructor
    · constructor <;>
        simp [schedStep, hr.runningEq, evalBlock, timingStep, BEGAN, END, hgs,
          hr.toValueEq, htv, htime, hnf, hlt, hr.finishedEq, tgt]
      all_goals linarith [hr.lowerLe]
    · refine ⟨?_, ?_, ?_⟩ <;>
        simp [schedStep, hr.runningEq, evalBlock, timingStep, BEGAN, END, hgs,
          hr.toValueEq, htv, htime, hnf, hlt, hr.finishedEq, tgt]

/-- A strictly increasing sequence of frames, all earlier than `t1 + d`,
keeps the run in flight: no callback fires and the clock time tracks the
last frame. -/
theorem frames_running (d : ℚ) (E : ℚ → ℚ) (hs hh : Bool) (g : Int) (t1 : ℚ)
    (hg : g = BEGAN ∨ g = END) (ht1 : 0 < t1) :
    ∀ (fs : List ℚ) (st : DriverState), RunningRun g t1 st.eng → st.gs = g →
      List.Chain' (· < ·) (st.eng.time :: fs) → (∀ f ∈ fs, f < t1 + d) →
      RunningRun g t1 (runSched d E hs hh st (fs.map SchedEvent.frame)).1.eng ∧
      (runSched d E hs hh st (fs.map SchedEvent.frame)).1.gs = g ∧
      (runSched d E hs hh st (fs.map SchedEvent.frame)).1.eng.time = fs.getLastD st.eng.time ∧
      (runSched d E hs hh st (fs.map SchedEvent.frame)).2 = []
  | [], st, hr, hgs, _, _ => ⟨hr, hgs, rfl, rfl⟩
  | f :: rest, st, hr, hgs, hch, hfs => by
    obtain ⟨hch1, hch2⟩ := List.chain'_cons.mp hch
    obtain ⟨hr', hgs', htime', hev'⟩ := frame_running d E hs hh g t1 hg ht1 st hr hgs f
      hch1 (hfs f (List.mem_cons_self _ _))
    obtain ⟨hr2, hgs2, htime2, hev2⟩ := frames_running d E hs hh g t1 hg ht1 rest
      (schedStep d E hs hh st (SchedEvent.frame f)).1 hr' hgs'
      (by rw [htime']; exact hch2) (fun x hx => hfs x (List.mem_cons_of_mem _ hx))
    rw [htime'] at htime2
    refine ⟨hr2, hgs2, ?_, ?_⟩
    · simp only [List.map_cons, runSched, List.getLastD_cons]
      exact htime2
    · simp only [List.map_cons, runSched]
      rw [hev', hev2]
      rfl

/-- A frame late enough to complete the run: the position snaps to the
target, `finished` is set, the clock stops, and the completion callback
matching the still-current signal fires. -/
theorem frame_complete (d : ℚ) (E : ℚ → ℚ) (hs hh : Bool) (g : Int) (t1 : ℚ)
    (hg : g = BEGAN ∨ g = END) (ht1 : 0 < t1) (st : DriverState)
    (hr : RunningRun g t1 st.eng) (hgs : st.gs = g) (F : ℚ) (hF : t1 + d ≤ F) :
    schedStep d E hs hh st (SchedEvent.frame F) =
      ({ gs := g,
         eng := { finished := true, position := tgt g, time := F, frameTime := F - t1,
                  toValue := tgt g, clockRunning := false } },
       if g = BEGAN then (if hs then [CbEvent.show] else [])
       else (if hh then [CbEvent.hide] else [])) := by
  have htime : st.eng.time ≠ 0 := ne_of_gt (lt_of_lt_of_le ht1 hr.lowerLe)
  have hnf : st.eng.frameTime + (F - st.eng.time) = F - t1 := by
    rw [hr.frameTimeEq]; ring
  have hge : d ≤ F - t1 := by linarith
  rcases tgt_cases g hg with ⟨hgv, htv⟩ | ⟨hgv, htv⟩ <;> subst hgv <;>
    simp [schedStep, hr.runningEq, evalBlock, timingStep, BEGAN, END, hgs,
      hr.toValueEq, htv, htime, hnf, hge, tgt]

theorem timingStep_toValue (d : ℚ) (E : ℚ → ℚ) (now : ℚ) (s : EngineState) :
    (timingStep d E now s).toValue = s.toValue := by
  simp only [timingStep]
  split <;> split <;> rfl

theorem timingStep_time (d : ℚ) (E : ℚ → ℚ) (now : ℚ) (s : EngineState) :
    (timingStep d E now s).time = now := by
  simp only [timingStep]
  split <;> split <;> rfl

theorem timingStep_clock (d : ℚ) (E : ℚ → ℚ) (now : ℚ) (s : EngineState) :
    (timingStep d E now s).clockRunning = s.clockRunning := by
  simp only [timingStep]
  split <;> split <;> rfl

theorem timingStep_pos_fixed (d : ℚ) (E : ℚ → ℚ) (now : ℚ) (s : EngineState)
    (h : s.position = s.toValue) : (timingStep d E now s).position = s.toValue := by
  simp only [timingStep]
  split <;> split <;> simp [h]

theorem timingStep_frameTime_nonneg (d : ℚ) (E : ℚ → ℚ) (now : ℚ) (s : EngineState)
    (h1 : 0 ≤ s.frameTime) (h2 : s.time ≤ now) :
    0 ≤ (timingStep d E now s).frameTime := by
  simp only [timingStep]
  split <;> split <;> simp only [] <;> linarith

theorem timingStep_finished_pos (d : ℚ) (E : ℚ → ℚ) (now : ℚ) (s : EngineState)
    (h0 : s.finished = false) (h : (timingStep d E now s).finished = true) :
    (timingStep d E now s).position = s.toValue := by
  revert h
  simp only [timingStep]
  split <;> split <;> intro h
  · rfl
  · exact absurd h (by simp [h0])
  · rfl
  · exact absurd h (by simp [h0])

theorem timingStep_complete (d : ℚ) (E : ℚ → ℚ) (now : ℚ) (s : EngineState)
    (htime : s.time ≠ 0) (hge : d ≤ s.frameTime + (now - s.time)) :
    (timingStep d E now s).position = s.toValue ∧
    (timingStep d E now s).finished = true := by
  simp only [timingStep, if_pos htime]
  rw [if_pos hge]
  exact ⟨rfl, rfl⟩

/-- State of an engine after a signal `g` has been processed and only frames
have occurred since: the timing target matches the signal, elapsed frame
time is nonnegative, a running clock implies an unfinished run, and a
stopped clock implies the position has settled at the target. -/
structure PostSig (g : Int) (s : EngineState) : Prop where
  toValueEq : s.toValue = tgt g
  frameTimeNonneg : 0 ≤ s.frameTime
  runFin : s.clockRunning = true → s.finished = false
  settled : s.clockRunning = false → s.position = s.toValue

/-- When the target already equals the signal's target, neither restart cond
fires: the evaluation is the `timing` continuation alone. -/
theorem evalBlock_continue (d : ℚ) (E : ℚ → ℚ) (hs hh : Bool) (g : Int) (now : ℚ)
    (s : EngineState) (hg : g = BEGAN ∨ g = END) (hc : s.toValue = tgt g) :
    evalBlock d E hs hh g now s =
      (if (timingStep d E now s).finished = true then
        { timingStep d E now s with clockRunning := false }
       else timingStep d E now s,
       (if hs ∧ (timingStep d E now s).finished = true ∧ g = BEGAN
          then [CbEvent.show] else []) ++
       (if hh ∧ (timingStep d E now s).finished = true ∧ g = END
          then [CbEvent.hide] else [])) := by
  rcases hg with hg | hg <;> subst hg <;>
    simp [tgt, BEGAN, END] at hc <;>
    by_cases hfin : (timingStep d E now s).finished = true <;>
    simp [evalBlock, hc, BEGAN, END, hfin]

/-- Processing a `BEGAN`/`END` signal always leaves the engine in a
`PostSig` state, whatever the starting state (restart or continuation). -/
theorem evalBlock_signal_post (d : ℚ) (E : ℚ → ℚ) (hs hh : Bool) (g : Int) (now : ℚ)
    (s : EngineState) (hg : g = BEGAN ∨ g = END) (hd : 0 < d) (hE0 : E 0 = 0)
    (ht : s.time ≤ now) (hf : 0 ≤ s.frameTime)
    (hfin : s.clockRunning = true → s.finished = false)
    (hstable : s.clockRunning = false → s.position = s.toValue ∨ s.toValue = -1) :
    PostSig g (evalBlock d E hs hh g now s).1 ∧
    (evalBlock d E hs hh g now s).1.time = now := by
  by_cases hc : s.toValue = tgt g
  · have hpt : s.clockRunning = false → s.position = s.toValue := by
      intro hrun
      rcases hstable hrun with h | h
      · exact h
      · exfalso
        rcases tgt_cases g hg with ⟨_, htv⟩ | ⟨_, htv⟩ <;>
          rw [h, htv] at hc <;> norm_num at hc
    rw [evalBlock_continue d E hs hh g now s hg hc]
    by_cases hfin3 : (timingStep d E now s).finished = true
    · have hpos : (timingStep d E now s).position = s.toValue := by
        by_cases hrun : s.clockRunning = true
        · exact timingStep_finished_pos d E now s (hfin hrun) hfin3
        · exact timingStep_pos_fixed d E now s (hpt (by simpa using hrun))
      rw [if_pos hfin3]
      refine ⟨⟨?_, ?_, ?_, ?_⟩, ?_⟩
      · simpa [timingStep_toValue] using hc
      · simpa using timingStep_frameTime_nonneg d E now s hf ht
      · intro hx; exact absurd hx (by simp)
      · intro _; simpa [timingStep_toValue] using hpos
      · simpa using timingStep_time d E now s
    · rw [if_neg hfin3]
      refine ⟨⟨?_, ?_, ?_, ?_⟩, ?_⟩
      · rw [timingStep_toValue]; exact hc
      · exact timingStep_frameTime_nonneg d E now s hf ht
      · intro _; exact Bool.not_eq_true _ ▸ (by simpa using hfin3)
      · intro hrun
        rw [timingStep_clock] at hrun
        rw [timingStep_toValue]
        exact timingStep_pos_fixed d E now s (hpt hrun)
      · exact timingStep_time d E now s
  · have hcase : (g = BEGAN ∧ s.toValue ≠ 1) ∨ (g = END ∧ s.toValue ≠ 0) := by
      rcases tgt_cases g hg with ⟨hgv, htv⟩ | ⟨hgv, htv⟩
      · exact Or.inl ⟨hgv, fun h => hc (by rw [htv]; exact h)⟩
      · exact Or.inr ⟨hgv, fun h => hc (by rw [htv]; exact h)⟩
    rw [evalBlock_start d E hs hh g now s hd hE0 hcase]
    exact ⟨⟨rfl, le_refl 0, fun _ => rfl, fun h => by simp at h⟩, rfl⟩

/-- A frame keeps `PostSig` and never moves the clock time past the frame's
timestamp. -/
theorem frame_post (d : ℚ) (E : ℚ → ℚ) (hs hh : Bool) (g : Int) (hg : g = BEGAN ∨ g = END)
    (st : DriverState) (hps : PostSig g st.eng) (hgs : st.gs = g) (now : ℚ)
    (ht : st.eng.time ≤ now) :
    PostSig g (schedStep d E hs hh st (SchedEvent.frame now)).1.eng ∧
    (schedStep d E hs hh st (SchedEvent.frame now)).1.gs = g ∧
    (schedStep d E hs hh st (SchedEvent.frame now)).1.eng.time ≤ now ∧
    (0 < st.eng.time → 0 < (schedStep d E hs hh st (SchedEvent.frame now)).1.eng.time) := by
  by_cases hrun : st.eng.clockRunning = true
  · have hstep : schedStep d E hs hh st (SchedEvent.frame now) =
        ({ gs := st.gs, eng := (evalBlock d E hs hh st.gs now st.eng).1 },
         (evalBlock d E hs hh st.gs now st.eng).2) := by
      simp [schedStep, hrun]
    rw [hstep, hgs, evalBlock_continue d E hs hh g now st.eng hg hps.toValueEq]
    by_cases hfin3 : (timingStep d E now st.eng).finished = true
    · rw [if_pos hfin3]
      refine ⟨⟨?_, ?_, ?_, ?_⟩, rfl, ?_, ?_⟩
      · simpa [timingStep_toValue] using hps.toValueEq
      · simpa using timingStep_frameTime_nonneg d E now st.eng hps.frameTimeNonneg ht
      · intro hx; exact absurd hx (by simp)
      · intro _
        simpa [timingStep_toValue] using
          timingStep_finished_pos d E now st.eng (hps.runFin hrun) hfin3
      · simpa using (timingStep_time d E now st.eng).le
      · intro htp
        simpa [timingStep_time d E now st.eng] using lt_of_lt_of_le htp ht
    · rw [if_neg hfin3]
      refine ⟨⟨?_, ?_, ?_, ?_⟩, rfl, ?_, ?_⟩
      · rw [timingStep_toValue]; exact hps.toValueEq
      · exact timingStep_frameTime_nonneg d E now st.eng hps.frameTimeNonneg ht
      · intro _; simpa using hfin3
      · intro hx
        rw [timingStep_clock, hrun] at hx
        exact absurd hx (by simp)
      · exact (timingStep_time d E now st.eng).le
      · intro htp; rw [timingStep_time]; exact lt_of_lt_of_le htp ht
  · have hrun' : st.eng.clockRunning = false := by simpa using hrun
    have hstep : schedStep d E hs hh st (SchedEvent.frame now) = (st, []) := by
      simp [schedStep, hrun']
    rw [hstep]
    exact ⟨hps, hgs, ht, fun h => h⟩

theorem getLastD_mono {l : List ℚ} {a b : ℚ} (h : a ≤ b) :
    l.getLastD a ≤ l.getLastD b := by
  cases l with
  | nil => simpa using h
  | cons x xs =>
    cases h2 : (x :: xs).getLast? with
    | none => simp at h2
    | some y => simp [List.getLastD_eq_getLast?, h2]

/-- Strictly increasing frames keep `PostSig`; the clock time stays bounded
by the last frame. -/
theorem frames_post (d : ℚ) (E : ℚ → ℚ) (hs hh : Bool) (g : Int)
    (hg : g = BEGAN ∨ g = END) :
    ∀ (fs : List ℚ) (st : DriverState), PostSig g st.eng → st.gs = g →
      List.Chain' (· < ·) (st.eng.time :: fs) → 0 < st.eng.time →
      PostSig g (runSched d E hs hh st (fs.map SchedEvent.frame)).1.eng ∧
      (runSched d E hs hh st (fs.map SchedEvent.frame)).1.gs = g ∧
      (runSched d E hs hh st (fs.map SchedEvent.frame)).1.eng.time ≤
        fs.getLastD st.eng.time ∧
      0 < (runSched d E hs hh st (fs.map SchedEvent.frame)).1.eng.time
  | [], st, hps, hgs, _, htp => ⟨hps, hgs, le_refl _, htp⟩
  | f :: rest, st, hps, hgs, hch, htp => by
    obtain ⟨hch1, hch2⟩ := List.chain'_cons.mp hch
    obtain ⟨hps', hgs', hle', hpos'⟩ := frame_post d E hs hh g hg st hps hgs f hch1.le
    have hch' : List.Chain'
        (· < ·) ((schedStep d E hs hh st (SchedEvent.frame f)).1.eng.time :: rest) := by
      cases rest with
      | nil => simp
      | cons f2 r2 =>
        obtain ⟨h12, h22⟩ := List.chain'_cons.mp hch2
        exact List.chain'_cons.mpr ⟨lt_of_le_of_lt hle' h12, h22⟩
    obtain ⟨hps2, hgs2, hle2, hpos2⟩ := frames_post d E hs hh g hg rest
      (schedStep d E hs hh st (SchedEvent.frame f)).1 hps' hgs' hch' (hpos' htp)
    refine ⟨?_, ?_, ?_, ?_⟩ <;> simp only [List.map_cons, runSched]
    · exact hps2
    · exact hgs2
    · calc (runSched d E hs hh (schedStep d E hs hh st (SchedEvent.frame f)).1
            (rest.map SchedEvent.frame)).1.eng.time
          ≤ rest.getLastD (schedStep d E hs hh st (SchedEvent.frame f)).1.eng.time := hle2
        _ ≤ rest.getLastD f := getLastD_mono hle'
        _ = (f :: rest).getLastD st.eng.time := (List.getLastD_cons _ _ _).symm
    · exact hpos2

/-- A frame at least one full duration after the engine's clock time settles
the position at the signal's target. -/
theorem frame_settle (d : ℚ) (E : ℚ → ℚ) (hs hh : Bool) (g : Int)
    (hg : g = BEGAN ∨ g = END) (st : DriverState) (hps : PostSig g st.eng)
    (hgs : st.gs = g) (htp : 0 < st.eng.time) (F : ℚ)
    (hF : st.eng.time + d ≤ F) :
    (schedStep d E hs hh st (SchedEvent.frame F)).1.eng.position = tgt g := by
  by_cases hrun : st.eng.clockRunning = true
  · have hcomp := timingStep_complete d E F st.eng (ne_of_gt htp)
      (by linarith [hps.frameTimeNonneg])
    have hstep : schedStep d E hs hh st (SchedEvent.frame F) =
        ({ gs := st.gs, eng := (evalBlock d E hs hh st.gs F st.eng).1 },
         (evalBlock d E hs hh st.gs F st.eng).2) := by
      simp [schedStep, hrun]
    rw [hstep, hgs, evalBlock_continue d E hs hh g F st.eng hg hps.toValueEq,
      if_pos hcomp.2]
    simpa using hcomp.1.trans hps.toValueEq
  · have hrun' : st.eng.clockRunning = false := by simpa using hrun
    have hstep : schedStep d E hs hh st (SchedEvent.frame F) = (st, []) := by
      simp [schedStep, hrun']
    rw [hstep]
    exact (hps.settled hrun').trans hps.toValueEq

/-- Invariant maintained by every well-formed scheduling history from the
initial driver state: nonnegative elapsed frame time, a running clock only
for unfinished runs started by a real signal, and a stopped clock only at a
settled position (or the untouched initial target `-1`). -/
structure DInv (st : DriverState) : Prop where
  frameTimeNonneg : 0 ≤ st.eng.frameTime
  runFin : st.eng.clockRunning = true → st.eng.finished = false
  stable : st.eng.clockRunning = false →
    st.eng.position = st.eng.toValue ∨ st.eng.toValue = -1
  runSig : st.eng.clockRunning = true →
    (st.gs = BEGAN ∨ st.gs = END) ∧ st.eng.toValue = tgt st.gs

theorem DInv_init : DInv initDriver :=
  ⟨le_refl 0, fun h => by simp [initDriver, initEngine] at h,
   fun _ => Or.inr rfl, fun h => by simp [initDriver, initEngine] at h⟩

theorem DInv_of_postSig (g : Int) (hg : g = BEGAN ∨ g = END) (st : DriverState)
    (hps : PostSig g st.eng) (hgs : st.gs = g) : DInv st :=
  ⟨hps.frameTimeNonneg, hps.runFin, fun h => Or.inl (hps.settled h),
   fun _ => ⟨by rw [hgs]; exact hg, by rw [hgs]; exact hps.toValueEq⟩⟩

theorem frame_DInv (d : ℚ) (E : ℚ → ℚ) (hs hh : Bool) (st : DriverState)
    (hinv : DInv st) (now : ℚ) (ht : st.eng.time ≤ now) :
    DInv (schedStep d E hs hh st (SchedEvent.frame now)).1 ∧
    (schedStep d E hs hh st (SchedEvent.frame now)).1.eng.time ≤ now := by
  by_cases hrun : st.eng.clockRunning = true
  · obtain ⟨hgg, htv⟩ := hinv.runSig hrun
    have hps : PostSig st.gs st.eng :=
      ⟨htv, hinv.frameTimeNonneg, hinv.runFin, fun h => absurd hrun (by simp [h])⟩
    obtain ⟨hps', hgs', hle', _⟩ := frame_post d E hs hh st.gs hgg st hps rfl now ht
    exact ⟨DInv_of_postSig st.gs hgg _ hps' hgs', hle'⟩
  · have hrun' : st.eng.clockRunning = false := by simpa using hrun
    have hstep : schedStep d E hs hh st (SchedEvent.frame now) = (st, []) := by
      simp [schedStep, hrun']
    rw [hstep]
    exact ⟨hinv, ht⟩

theorem signal_DInv (d : ℚ) (E : ℚ → ℚ) (hs hh : Bool) (g : Int)
    (hg : g = BEGAN ∨ g = END) (hd : 0 < d) (hE0 : E 0 = 0) (st : DriverState)
    (hinv : DInv st) (now : ℚ) (ht : st.eng.time ≤ now) :
    DInv (schedStep d E hs hh st (SchedEvent.setSignal g now)).1 ∧
    (schedStep d E hs hh st (SchedEvent.setSignal g now)).1.eng.time = now := by
  have h := evalBlock_signal_post d E hs hh g now st.eng hg hd hE0 ht
    hinv.frameTimeNonneg hinv.runFin hinv.stable
  exact ⟨DInv_of_postSig g hg _ h.1 rfl, h.2⟩

theorem runSched_DInv (d : ℚ) (E : ℚ → ℚ) (hs hh : Bool) (hd : 0 < d) (hE0 : E 0 = 0) :
    ∀ (es : List SchedEvent) (st : DriverState) (t0 : ℚ), DInv st →
      st.eng.time ≤ t0 →
      List.Chain' (· < ·) (t0 :: es.map evTime) →
      (∀ e ∈ es, ∀ g, evSignal e = some g → g = BEGAN ∨ g = END) →
      DInv (runSched d E hs hh st es).1 ∧
      (runSched d E hs hh st es).1.eng.time ≤ (es.map evTime).getLastD t0
  | [], st, t0, hinv, ht, _, _ => ⟨hinv, ht⟩
  | e :: rest, st, t0, hinv, ht, hch, hsigs => by
    obtain ⟨hch1, hch2⟩ := List.chain'_cons.mp hch
    have hte : st.eng.time ≤ evTime e := le_trans ht hch1.le
    have hstep : DInv (schedStep d E hs hh st e).1 ∧
        (schedStep d E hs hh st e).1.eng.time ≤ evTime e := by
      cases e with
      | setSignal g t =>
        have hg := hsigs _ (List.mem_cons_self _ _) g rfl
        have h2 := signal_DInv d E hs hh g hg hd hE0 st hinv t hte
        exact ⟨h2.1, le_of_eq h2.2⟩
      | frame t => exact frame_DInv d E hs hh st hinv t hte
    obtain ⟨hinv2, hle2⟩ := runSched_DInv d E hs hh hd hE0 rest
      (schedStep d E hs hh st e).1 (evTime e) hstep.1 hstep.2 hch2
      (fun x hx => hsigs x (List.mem_cons_of_mem _ hx))
    refine ⟨?_, ?_⟩ <;> simp only [runSched, List.map_cons]
    · exact hinv2
    · rw [List.getLastD_cons]
      exact hle2

theorem getLast?_cons_getLastD {α : Type} : ∀ (a : α) (l : List α),
    (a :: l).getLast? = some (l.getLastD a)
  | _, [] => rfl
  | a, x :: xs => by
    rw [List.getLast?_cons_cons, getLast?_cons_getLastD x xs, List.getLastD_cons]

theorem chain_le_getLastD : ∀ (l : List ℚ) (a : ℚ),
    List.Chain' (· < ·) (a :: l) → a ≤ l.getLastD a
  | [], a, _ => le_refl a
  | x :: xs, a, h => by
    obtain ⟨h1, h2⟩ := List.chain'_cons.mp h
    calc a ≤ x := h1.le
      _ ≤ xs.getLastD x := chain_le_getLastD xs x h2
      _ = (x :: xs).getLastD a := (List.getLastD_cons _ _ _).symm

/-! ### Characterization of the Modal effect's signal stream -/

theorem visSignals_eq_from (initial : Bool) (updates : List Bool) :
    visSignals initial updates = visSignalsFrom true initial updates := by
  simp [visSignals, visEffect]

theorem visSignalsFrom_true_cons (prev v : Bool) (rest : List Bool) :
    visSignalsFrom true prev (v :: rest) =
      if v = prev then visSignalsFrom true prev rest
      else (if v then BEGAN else END) :: visSignalsFrom true v rest := by
  by_cases hv : v = prev <;> simp [visSignalsFrom, visEffect, hv]

theorem visSignalsFrom_true_mem : ∀ (prev : Bool) (l : List Bool) (g : Int),
    g ∈ visSignalsFrom true prev l → g = BEGAN ∨ g = END
  | prev, [], g, h => by simp [visSignalsFrom] at h
  | prev, v :: rest, g, h => by
    rw [visSignalsFrom_true_cons] at h
    by_cases hv : v = prev
    · rw [if_pos hv] at h
      exact visSignalsFrom_true_mem prev rest g h
    · rw [if_neg hv] at h
      rcases List.mem_cons.mp h with h | h
      · cases v
        · exact Or.inr (by simpa using h)
        · exact Or.inl (by simpa using h)
      · exact visSignalsFrom_true_mem v rest g h

theorem visSignalsFrom_true_nil : ∀ (prev : Bool) (l : List Bool),
    visSignalsFrom true prev l = [] → l.getLastD prev = prev
  | _, [], _ => rfl
  | prev, v :: rest, h => by
    rw [visSignalsFrom_true_cons] at h
    by_cases hv : v = prev
    · rw [if_pos hv] at h
      rw [List.getLastD_cons, hv]
      exact visSignalsFrom_true_nil prev rest h
    · rw [if_neg hv] at h
      exact absurd h (by simp)

theorem visSignalsFrom_true_getLast : ∀ (prev : Bool) (l : List Bool),
    visSignalsFrom true prev l ≠ [] →
    (visSignalsFrom true prev l).getLast? =
      some (if l.getLastD prev then BEGAN else END)
  | prev, [], h => absurd rfl h
  | prev, v :: rest, h => by
    rw [visSignalsFrom_true_cons] at h ⊢
    by_cases hv : v = prev
    · rw [if_pos hv] at h ⊢
      rw [List.getLastD_cons, hv]
      exact visSignalsFrom_true_getLast prev rest h
    · rw [if_neg hv] at h ⊢
      rw [List.getLastD_cons]
      cases hrest : visSignalsFrom true v rest with
      | nil =>
        have hlast := visSignalsFrom_true_nil v rest hrest
        rw [List.getLastD_eq_getLast?] at hlast
        simp [hlast]
      | cons y ys =>
        have hrec := visSignalsFrom_true_getLast v rest (by rw [hrest]; simp)
        rw [hrest] at hrec
        rw [List.getLast?_cons_cons]
        exact hrec

/-! ### Engine claims -/

/-- Claim C9: the renderer skips driving the engine on its first render: the
gesture-state `Value` starts at `-1`, the mount run of the visibility effect
emits no signal, so a renderer mounted with `isVisible = true` leaves the
clock stopped and the rendered progress at `0` through any number of frames,
while the container already intercepts pointer input
(`pointerEvents = "auto"`); only a later change of `isVisible` emits a
signal. -/
theorem mount_visible_stays_hidden (v w : Bool) (fs : List ℚ) (d : ℚ) (E : ℚ → ℚ)
    (hs hh : Bool) (hvw : w ≠ v) :
    initDriver.gs = -1 ∧
    visSignals v [] = [] ∧
    runSched d E hs hh initDriver (fs.map SchedEvent.frame) = (initDriver, []) ∧
    opacityOutput initDriver.eng = 0 ∧
    pointerEvents true = "auto" ∧
    visSignals v [w] = [if w then BEGAN else END] := by
  refine ⟨rfl, rfl, ?_, by decide, rfl, ?_⟩
  · exact runSched_frames_stopped d E hs hh _ initDriver rfl
      (fun e he => by rcases List.mem_map.mp he with ⟨t, _, rfl⟩; rfl)
  · rw [visSignals_eq_from, visSignalsFrom_true_cons, if_neg hvw]
    rfl

theorem mount_visible_stays_hidden_witness :
    initDriver.gs = -1 ∧
    visSignals true [] = [] ∧
    runSched 240 id true true initDriver
      ([100, 400].map SchedEvent.frame) = (initDriver, []) ∧
    opacityOutput initDriver.eng = 0 ∧
    pointerEvents true = "auto" ∧
    visSignals true [false] = [if false then BEGAN else END] :=
  mount_visible_stays_hidden true false [100, 400] 240 id true true (by decide)

theorem visSignalsFrom_dup : ∀ (prev : Bool) (l : List Bool) (v : Bool),
    visSignalsFrom true prev (l ++ [v, v]) = visSignalsFrom true prev (l ++ [v])
  | prev, [], v => by
    by_cases hv : v = prev <;>
      simp [visSignalsFrom_true_cons, hv]
  | prev, x :: xs, v => by
    rw [List.cons_append, List.cons_append, visSignalsFrom_true_cons,
      visSignalsFrom_true_cons]
    by_cases hx : x = prev
    · rw [if_pos hx, if_pos hx]
      exact visSignalsFrom_dup prev xs v
    · rw [if_neg hx, if_neg hx, visSignalsFrom_dup x xs v]

/-- Claim C6: opening is idempotent. A repeated `setVisible(id, true)` emits
no second `BEGAN` signal (the effect only runs on a change of `isVisible`),
so the signal stream of any history ending `true, true` equals that of the
history ending with a single `true`; and at the engine level an evaluation
with `BEGAN` while the timing target is already `1` changes the state
exactly as an evaluation with no signal at all (the restart cond is dead, so
nothing restarts from 0). Concretely, the double-open scenario drives the
engine once and fires `onModalShow` once. -/
theorem setVisible_true_idempotent (d : ℚ) (E : ℚ → ℚ) (hs hh : Bool) :
    (∀ (prev : Bool) (l : List Bool),
      visSignals prev (l ++ [true, true]) = visSignals prev (l ++ [true])) ∧
    (∀ (s : EngineState) (now : ℚ), s.toValue = 1 →
      (evalBlock d E hs hh BEGAN now s).1 = (evalBlock d E hs hh (-1) now s).1) ∧
    visSignals false [true, true] = [BEGAN] ∧
    (runSched 240 id true true initDriver
      [SchedEvent.setSignal BEGAN 1, SchedEvent.frame 241]).2 = [CbEvent.show] := by
  refine ⟨?_, ?_, by decide, by
    norm_num [runSched, schedStep, evalBlock, timingStep, initDriver, initEngine, BEGAN, END]⟩
  · intro prev l
    rw [visSignals_eq_from, visSignals_eq_from]
    exact visSignalsFrom_dup prev l true
  · intro s now h
    simp [evalBlock, BEGAN, END, h]

theorem setVisible_true_idempotent_witness :
    visSignals false ([] ++ [true, true]) = visSignals false ([] ++ [true]) ∧
    (evalBlock 240 id true true BEGAN 10
        { finished := false, position := 1/2, time := 3, frameTime := 3,
          toValue := 1, clockRunning := true }).1 =
      (evalBlock 240 id true true (-1) 10
        { finished := false, position := 1/2, time := 3, frameTime := 3,
          toValue := 1, clockRunning := true }).1 :=
  ⟨(setVisible_true_idempotent 240 id true true).1 false [],
   (setVisible_true_idempotent 240 id true true).2.1 _ 10 rfl⟩

/-- Claim C3: a transition that runs to completion without an intervening
signal change fires the matching completion callback exactly once — the
completing frame stops the clock, so later frames do not evaluate the block
again — and the `finished` flag is reset whenever a new timing run starts. -/
theorem completion_callback_once (d : ℚ) (E : ℚ → ℚ) (g : Int) (t1 F : ℚ)
    (fs fs2 : List ℚ)
    (hg : g = BEGAN ∨ g = END) (hd : 0 < d) (hE0 : E 0 = 0) (ht1 : 0 < t1)
    (hch : List.Chain' (· < ·) (t1 :: fs)) (hfs : ∀ f ∈ fs, f < t1 + d)
    (hF : t1 + d ≤ F) :
    (runSched d E true true initDriver
        (SchedEvent.setSignal g t1 ::
          (fs.map SchedEvent.frame ++ SchedEvent.frame F :: fs2.map SchedEvent.frame))).2 =
      [if g = BEGAN then CbEvent.show else CbEvent.hide] ∧
    (∀ (s : EngineState) (now : ℚ), s.toValue ≠ 1 →
      (evalBlock d E true true BEGAN now s).1.finished = false) ∧
    (∀ (s : EngineState) (now : ℚ), s.toValue ≠ 0 →
      (evalBlock d E true true END now s).1.finished = false) := by
  refine ⟨?_, ?_, ?_⟩
  · have hc0 : (g = BEGAN ∧ initEngine.toValue ≠ 1) ∨ (g = END ∧ initEngine.toValue ≠ 0) := by
      rcases hg with hg | hg
      · exact Or.inl ⟨hg, by norm_num [initEngine]⟩
      · exact Or.inr ⟨hg, by norm_num [initEngine]⟩
    have h0 : evalBlock d E true true g t1 initEngine =
        ({ finished := false, position := 0, time := t1, frameTime := 0,
           toValue := tgt g, clockRunning := true }, []) := by
      rw [evalBlock_start d E true true g t1 initEngine hd hE0 hc0]
      rfl
    have hstep1 : schedStep d E true true initDriver (SchedEvent.setSignal g t1) =
        ({ gs := g, eng := { finished := false, position := 0, time := t1, frameTime := 0,
                             toValue := tgt g, clockRunning := true } }, []) := by
      simp only [schedStep]
      rw [show initDriver.eng = initEngine from rfl, h0]
    have hrun1 : RunningRun g t1
        (({ gs := g, eng := { finished := false, position := 0, time := t1, frameTime := 0,
                              toValue := tgt g, clockRunning := true } } : DriverState)).eng :=
      ⟨rfl, rfl, rfl, by simp, le_refl t1⟩
    obtain ⟨hrun2, hgs2, htime2, hev2⟩ := frames_running d E true true g t1 hg ht1 fs
      _ hrun1 rfl hch hfs
    have hcomp := frame_complete d E true true g t1 hg ht1 _ hrun2 hgs2 F hF
    have hrest := runSched_frames_stopped d E true true (fs2.map SchedEvent.frame)
      { gs := g, eng := { finished := true, position := tgt g, time := F, frameTime := F - t1,
                          toValue := tgt g, clockRunning := false } }
      rfl (fun e he => by rcases List.mem_map.mp he with ⟨t, _, rfl⟩; rfl)
    rcases hg with hgv | hgv <;> subst hgv <;>
      simp [runSched_cons, hstep1, runSched_append, hev2, hcomp, hrest,
        show ¬ (END = BEGAN) from by decide]
  · intro s now h
    rw [evalBlock_start d E true true BEGAN now s hd hE0 (Or.inl ⟨rfl, h⟩)]
  · intro s now h
    rw [evalBlock_start d E true true END now s hd hE0 (Or.inr ⟨rfl, h⟩)]

theorem completion_callback_once_witness :
    (0 : ℚ) < 240 ∧
    (runSched 240 id true true initDriver
        (SchedEvent.setSignal BEGAN 1 ::
          ([100].map SchedEvent.frame ++
            SchedEvent.frame 241 :: [300].map SchedEvent.frame))).2 =
      [if BEGAN = BEGAN then CbEvent.show else CbEvent.hide] :=
  ⟨by norm_num,
   (completion_callback_once 240 id BEGAN 1 241 [100] [300] (Or.inl rfl) (by norm_num)
      rfl (by norm_num) (by norm_num) (by norm_num) (by norm_num)).1⟩

theorem evalBlock_events (d : ℚ) (E : ℚ → ℚ) (hs hh : Bool) (gs : Int) (now : ℚ)
    (s : EngineState) :
    (evalBlock d E hs hh gs now s).2 =
      (if hs ∧ (evalBlock d E hs hh gs now s).1.finished = true ∧ gs = BEGAN
        then [CbEvent.show] else []) ++
      (if hh ∧ (evalBlock d E hs hh gs now s).1.finished = true ∧ gs = END
        then [CbEvent.hide] else []) := rfl

theorem show_not_mem_end_eval (d : ℚ) (E : ℚ → ℚ) (hs hh : Bool) (now : ℚ)
    (s : EngineState) : CbEvent.show ∉ (evalBlock d E hs hh END now s).2 := by
  rw [evalBlock_events]
  intro h
  rcases List.mem_append.mp h with h | h
  · rw [if_neg (by rintro ⟨-, -, habs⟩; exact absurd habs (by decide))] at h
    exact absurd h (List.not_mem_nil _)
  · split at h
    · simp at h
    · exact absurd h (List.not_mem_nil _)

theorem show_not_mem_frames (d : ℚ) (E : ℚ → ℚ) (hs hh : Bool) :
    ∀ (es : List SchedEvent) (st : DriverState), st.gs = END →
      (∀ e ∈ es, evSignal e = none) →
      CbEvent.show ∉ (runSched d E hs hh st es).2
  | [], st, _, _ => by simp [runSched]
  | SchedEvent.setSignal g t :: rest, st, hgs, hes =>
    absurd (hes _ (List.mem_cons_self _ _)) (by simp [evSignal])
  | SchedEvent.frame t :: rest, st, hgs, hes => by
    rw [runSched_cons]
    intro h
    rcases List.mem_append.mp h with h | h
    · by_cases hrun : st.eng.clockRunning = true
      · have hstep : schedStep d E hs hh st (SchedEvent.frame t) =
            ({ gs := st.gs, eng := (evalBlock d E hs hh st.gs t st.eng).1 },
             (evalBlock d E hs hh st.gs t st.eng).2) := by
          simp [schedStep, hrun]
        rw [hstep, hgs] at h
        exact show_not_mem_end_eval d E hs hh t st.eng h
      · have hrun' : st.eng.clockRunning = false := by simpa using hrun
        rw [show schedStep d E hs hh st (SchedEvent.frame t) = (st, []) from by
          simp [schedStep, hrun']] at h
        exact absurd h (List.not_mem_nil _)
    · have hgs' : (schedStep d E hs hh st (SchedEvent.frame t)).1.gs = END := by
        by_cases hrun : st.eng.clockRunning = true
        · simpa [schedStep, hrun] using hgs
        · have hrun' : st.eng.clockRunning = false := by simpa using hrun
          simpa [schedStep, hrun'] using hgs
      exact show_not_mem_frames d E hs hh rest _ hgs'
        (fun e he => hes e (List.mem_cons_of_mem _ he)) h

/-- Claim C2: reversal. If `setVisible(id, true)` starts a show run at `t1`
and `setVisible(id, false)` arrives at `t2` before the show completes (every
frame in between is earlier than `t1 + d`), then `onModalShow` never fires
anywhere in the history; the `END` evaluation keeps the position exactly at
its interrupted intermediate value (no reset to an extreme), retargets the
run to `0` with the clock running, and fires nothing; and the subsequent
hide run settles the position at `0` once a frame at least one duration
after the last one arrives. -/
theorem show_reversal (d : ℚ) (E : ℚ → ℚ) (t1 t2 F : ℚ) (fs fs2 : List ℚ)
    (hd : 0 < d) (hE0 : E 0 = 0) (ht1 : 0 < t1)
    (hch : List.Chain' (· < ·) (t1 :: fs)) (hfs : ∀ f ∈ fs, f < t1 + d)
    (ht2 : 0 < t2) (hch2 : List.Chain' (· < ·) (t2 :: fs2))
    (hF : fs2.getLastD t2 + d ≤ F) :
    CbEvent.show ∉ (runSched d E true true initDriver
        ((SchedEvent.setSignal BEGAN t1 :: fs.map SchedEvent.frame) ++
          SchedEvent.setSignal END t2 ::
            (fs2.map SchedEvent.frame ++ [SchedEvent.frame F]))).2 ∧
    (runSched d E true true initDriver
        ((SchedEvent.setSignal BEGAN t1 :: fs.map SchedEvent.frame) ++
          SchedEvent.setSignal END t2 ::
            (fs2.map SchedEvent.frame ++ [SchedEvent.frame F]))).1.eng.position = 0 ∧
    (schedStep d E true true
        (runSched d E true true initDriver
          (SchedEvent.setSignal BEGAN t1 :: fs.map SchedEvent.frame)).1
        (SchedEvent.setSignal END t2)).1.eng.position =
      (runSched d E true true initDriver
        (SchedEvent.setSignal BEGAN t1 :: fs.map SchedEvent.frame)).1.eng.position ∧
    (schedStep d E true true
        (runSched d E true true initDriver
          (SchedEvent.setSignal BEGAN t1 :: fs.map SchedEvent.frame)).1
        (SchedEvent.setSignal END t2)).1.eng.toValue = 0 ∧
    (schedStep d E true true
        (runSched d E true true initDriver
          (SchedEvent.setSignal BEGAN t1 :: fs.map SchedEvent.frame)).1
        (SchedEvent.setSignal END t2)).2 = [] := by
  -- show phase, exactly as in the completion theorem
  have hc0 : (BEGAN = BEGAN ∧ initEngine.toValue ≠ 1) ∨
      (BEGAN = END ∧ initEngine.toValue ≠ 0) :=
    Or.inl ⟨rfl, by norm_num [initEngine]⟩
  have h0 : evalBlock d E true true BEGAN t1 initEngine =
      ({ finished := false, position := 0, time := t1, frameTime := 0,
         toValue := tgt BEGAN, clockRunning := true }, []) := by
    rw [evalBlock_start d E true true BEGAN t1 initEngine hd hE0 hc0]
    rfl
  have hstep1 : schedStep d E true true initDriver (SchedEvent.setSignal BEGAN t1) =
      ({ gs := BEGAN, eng := { finished := false, position := 0, time := t1, frameTime := 0,
                               toValue := tgt BEGAN, clockRunning := true } }, []) := by
    simp only [schedStep]
    rw [show initDriver.eng = initEngine from rfl, h0]
  have hrun1 : RunningRun BEGAN t1
      (({ gs := BEGAN, eng := { finished := false, position := 0, time := t1, frameTime := 0,
                                toValue := tgt BEGAN, clockRunning := true } } : DriverState)).eng :=
    ⟨rfl, rfl, rfl, by simp, le_refl t1⟩
  obtain ⟨hrun2, hgs2, htime2, hev2⟩ := frames_running d E true true BEGAN t1 (Or.inl rfl)
    ht1 fs _ hrun1 rfl hch hfs
  -- the show-phase run, named through its defining equation
  have hphase1 : runSched d E true true initDriver
      (SchedEvent.setSignal BEGAN t1 :: fs.map SchedEvent.frame) =
      ((runSched d E true true
          { gs := BEGAN, eng := { finished := false, position := 0, time := t1, frameTime := 0,
                                  toValue := tgt BEGAN, clockRunning := true } }
          (fs.map SchedEvent.frame)).1, []) := by
    rw [runSched_cons, hstep1]
    rw [hev2]
    rfl
  -- the END evaluation preserves the position and retargets to 0
  have hendeval := evalBlock_start d E true true END t2
    (runSched d E true true
      { gs := BEGAN, eng := { finished := false, position := 0, time := t1, frameTime := 0,
                              toValue := tgt BEGAN, clockRunning := true } }
      (fs.map SchedEvent.frame)).1.eng hd hE0
    (Or.inr ⟨rfl, by rw [hrun2.toValueEq]; norm_num [tgt, BEGAN, END]⟩)
  have hstep2 : schedStep d E true true
      (runSched d E true true initDriver
        (SchedEvent.setSignal BEGAN t1 :: fs.map SchedEvent.frame)).1
      (SchedEvent.setSignal END t2) =
      ({ gs := END,
         eng := { finished := false,
                  position := (runSched d E true true
                    { gs := BEGAN,
                      eng := { finished := false, position := 0, time := t1, frameTime := 0,
                               toValue := tgt BEGAN, clockRunning := true } }
                    (fs.map SchedEvent.frame)).1.eng.position,
                  time := t2, frameTime := 0,
                  toValue := tgt END, clockRunning := true } }, []) := by
    rw [hphase1]
    simp only [schedStep]
    rw [hendeval]
  have htgtEND : tgt END = 0 := by norm_num [tgt, BEGAN, END]
  -- PostSig for the hide run
  have hps2 : PostSig END
      ({ finished := false,
         position := (runSched d E true true
           { gs := BEGAN,
             eng := { finished := false, position := 0, time := t1, frameTime := 0,
                      toValue := tgt BEGAN, clockRunning := true } }
           (fs.map SchedEvent.frame)).1.eng.position,
         time := t2, frameTime := 0,
         toValue := tgt END, clockRunning := true } : EngineState) :=
    ⟨rfl, le_refl 0, fun _ => rfl, fun h => by simp at h⟩
  obtain ⟨hps3, hgs3, hle3, hpos3⟩ := frames_post d E true true END (Or.inr rfl) fs2
    { gs := END,
      eng := { finished := false,
               position := (runSched d E true true
                 { gs := BEGAN,
                   eng := { finished := false, position := 0, time := t1, frameTime := 0,
                            toValue := tgt BEGAN, clockRunning := true } }
                 (fs.map SchedEvent.frame)).1.eng.position,
               time := t2, frameTime := 0,
               toValue := tgt END, clockRunning := true } }
    hps2 rfl hch2 ht2
  have hsettle := frame_settle d E true true END (Or.inr rfl) _ hps3 hgs3 hpos3 F
    (le_trans (by linarith [hle3]) (le_refl F))
  refine ⟨?_, ?_, ?_, ?_, ?_⟩
  · -- no onModalShow anywhere
    rw [runSched_append, runSched_cons]
    intro h
    rcases List.mem_append.mp h with h | h
    · rw [hphase1] at h
      exact absurd h (List.not_mem_nil _)
    · rw [hstep2] at h
      rcases List.mem_append.mp h with h | h
      · exact absurd h (List.not_mem_nil _)
      · exact show_not_mem_frames d E true true _ _ rfl
          (fun e he => by
            rcases List.mem_append.mp he with he | he
            · rcases List.mem_map.mp he with ⟨t, _, rfl⟩; rfl
            · rcases List.mem_cons.mp he with rfl | he
              · rfl
              · exact absurd he (List.not_mem_nil _)) h
  · -- final position settles at 0
    rw [runSched_append, runSched_cons, hstep2, runSched_append, runSched_cons]
    rw [htgtEND] at hsettle
    exact hsettle
  · rw [hstep2, hphase1]
  · rw [hstep2, htgtEND]
  · rw [hstep2]

theorem show_reversal_witness :
    CbEvent.show ∉ (runSched 240 id true true initDriver
        ((SchedEvent.setSignal BEGAN 1 :: [(100 : ℚ)].map SchedEvent.frame) ++
          SchedEvent.setSignal END 150 ::
            ([(200 : ℚ)].map SchedEvent.frame ++ [SchedEvent.frame 500]))).2 ∧
    (runSched 240 id true true initDriver
        ((SchedEvent.setSignal BEGAN 1 :: [(100 : ℚ)].map SchedEvent.frame) ++
          SchedEvent.setSignal END 150 ::
            ([(200 : ℚ)].map SchedEvent.frame ++ [SchedEvent.frame 500]))).1.eng.position = 0 :=
  ⟨(show_reversal 240 id 1 150 500 [100] [200] (by norm_num) rfl (by norm_num)
      (by norm_num [List.chain'_cons]) (by norm_num) (by norm_num)
      (by norm_num [List.chain'_cons]) (by norm_num [List.getLastD_cons])).1,
   (show_reversal 240 id 1 150 500 [100] [200] (by norm_num) rfl (by norm_num)
      (by norm_num [List.chain'_cons]) (by norm_num) (by norm_num)
      (by norm_num [List.chain'_cons]) (by norm_num [List.getLastD_cons])).2.1⟩

/-- Claim C4, counterexample: the claim fails on a sequence whose only call
is `setVisible(id, true)` at mount. The registry then records the dialog as
visible, but the renderer mounted with `isVisible = true` emits no signal
(the init guard skips the mount run of the effect), the clock never starts,
and after frames far beyond the duration the rendered progress is still `0`,
not `1`. -/
theorem mount_true_never_settles :
    visSignals true [] = [] ∧
    objGet (setVisible { views := [("a", some 7)], configs := [], visibleView := [] }
        "a" true).1.visibleView "a" = some true ∧
    runSched 240 id true true initDriver
      [SchedEvent.frame 1000, SchedEvent.frame 2000] = (initDriver, []) ∧
    opacityOutput initDriver.eng = 0 ∧
    (0 : ℚ) ≠ 1 := by
  refine ⟨rfl, by decide, ?_, by decide, by norm_num⟩
  exact runSched_frames_stopped 240 id true true _ initDriver rfl
    (fun e he => by
      rcases List.mem_cons.mp he with rfl | he
      · rfl
      · rcases List.mem_cons.mp he with rfl | he
        · rfl
        · exact absurd he (List.not_mem_nil _))

/-- Claim C4 (amended): every `setVisible` call immediately records the new
visibility in the registry, and a provider render performed after the call
passes that value to the renderer for the key. For the animation: for any
history whose emitted signal stream is nonempty (that is, at least one
visibility change occurred after the renderer's initial render — a renderer
mounted visible emits nothing, see the counterexample), once the signals
have been processed and a frame at least one duration after the last event
arrives, the rendered progress equals `1` if the last call was `true` and
`0` if it was `false`, regardless of intermediate toggles. -/
theorem setVisible_sequence_settles (d : ℚ) (E : ℚ → ℚ) (hs hh : Bool)
    (hd : 0 < d) (hE0 : E 0 = 0)
    (initial : Bool) (updates : List Bool)
    (es1 : List SchedEvent) (g : Int) (t : ℚ) (fs2 : List ℚ) (F : ℚ)
    (hshape : es1.filterMap evSignal ++ [g] = visSignals initial updates)
    (hch : List.Chain' (· < ·)
      ((0 :: (es1 ++ [SchedEvent.setSignal g t]).map evTime) ++ fs2))
    (hF : fs2.getLastD t + d ≤ F) :
    (runSched d E hs hh initDriver
        (es1 ++ SchedEvent.setSignal g t ::
          (fs2.map SchedEvent.frame ++ [SchedEvent.frame F]))).1.eng.position =
      (if updates.getLastD initial then 1 else 0) ∧
    opacityOutput (runSched d E hs hh initDriver
        (es1 ++ SchedEvent.setSignal g t ::
          (fs2.map SchedEvent.frame ++ [SchedEvent.frame F]))).1.eng =
      (if updates.getLastD initial then 1 else 0) ∧
    (∀ (s : RegistryState) (k : Key) (v : Bool),
      objGet (setVisible s k v).1.visibleView k = some v) ∧
    (∀ (s : RegistryState) (k : Key) (v : Bool) (m : RenderedModal),
      (providerRender (setVisible s k v).1).find? (fun m2 => m2.key == k) = some m →
      m.isVisible = v) := by
  -- facts about the signal stream
  have hmemsig : ∀ g', g' ∈ es1.filterMap evSignal ++ [g] → g' = BEGAN ∨ g' = END := by
    intro g' hmem
    rw [hshape, visSignals_eq_from] at hmem
    exact visSignalsFrom_true_mem initial updates g' hmem
  have hg : g = BEGAN ∨ g = END :=
    hmemsig g (List.mem_append.mpr (Or.inr (List.mem_cons_self _ _)))
  have hgood1 : ∀ e ∈ es1, ∀ g', evSignal e = some g' → g' = BEGAN ∨ g' = END := by
    intro e he g' hsig
    exact hmemsig g' (List.mem_append.mpr (Or.inl
      (List.mem_filterMap.mpr ⟨e, he, hsig⟩)))
  have hne : visSignals initial updates ≠ [] := by
    rw [← hshape]
    simp
  have hlastsig : g = (if updates.getLastD initial then BEGAN else END) := by
    have h1 : (visSignals initial updates).getLast? = some g := by
      rw [← hshape]
      exact List.getLast?_concat _
    have h2 := visSignalsFrom_true_getLast initial updates
      (by rw [← visSignals_eq_from]; exact hne)
    rw [← visSignals_eq_from] at h2
    rw [h1] at h2
    exact Option.some.inj h2
  -- split the chain
  have hch' : List.Chain' (· < ·)
      ((0 :: es1.map evTime) ++ (t :: fs2)) := by
    have : (0 :: (es1 ++ [SchedEvent.setSignal g t]).map evTime) ++ fs2 =
        (0 :: es1.map evTime) ++ (t :: fs2) := by
      simp [evTime]
    rw [this] at hch
    exact hch
  obtain ⟨hchA, hchB, hlink⟩ := List.chain'_append.mp hch'
  have hlink2 : (es1.map evTime).getLastD 0 < t := by
    have := hlink ((es1.map evTime).getLastD 0)
      (by rw [getLast?_cons_getLastD]; rfl) t rfl
    exact this
  have h0le : (0 : ℚ) ≤ (es1.map evTime).getLastD 0 := chain_le_getLastD _ 0 hchA
  -- prefix: invariant up to the last signal
  obtain ⟨hinv1, htime1⟩ := runSched_DInv d E hs hh hd hE0 es1 initDriver 0
    DInv_init (le_refl 0) hchA hgood1
  -- the last signal
  obtain ⟨hps2, htime2⟩ := evalBlock_signal_post d E hs hh g t
    (runSched d E hs hh initDriver es1).1.eng hg hd hE0
    (le_trans htime1 (le_of_lt (lt_of_le_of_lt (le_refl _) hlink2)))
    hinv1.frameTimeNonneg hinv1.runFin hinv1.stable
  have hstep2 : schedStep d E hs hh (runSched d E hs hh initDriver es1).1
      (SchedEvent.setSignal g t) =
      ({ gs := g, eng := (evalBlock d E hs hh g t
          (runSched d E hs hh initDriver es1).1.eng).1 },
       (evalBlock d E hs hh g t (runSched d E hs hh initDriver es1).1.eng).2) := rfl
  have htpos : (0 : ℚ) < t := lt_of_le_of_lt h0le hlink2
  -- frames after the last signal
  obtain ⟨hps3, hgs3, hle3, hpos3⟩ := frames_post d E hs hh g hg fs2
    { gs := g, eng := (evalBlock d E hs hh g t
        (runSched d E hs hh initDriver es1).1.eng).1 }
    hps2 rfl (by rw [htime2]; exact hchB) (by rw [htime2]; exact htpos)
  -- the settling frame
  have hsettle := frame_settle d E hs hh g hg _ hps3 hgs3 hpos3 F
    (by
      have : (runSched d E hs hh
          { gs := g, eng := (evalBlock d E hs hh g t
              (runSched d E hs hh initDriver es1).1.eng).1 }
          (fs2.map SchedEvent.frame)).1.eng.time ≤ fs2.getLastD t := by
        rw [htime2] at hle3
        exact hle3
      linarith)
  have htgtlast : tgt g = (if updates.getLastD initial then 1 else 0) := by
    rw [hlastsig]
    cases updates.getLastD initial <;> norm_num [tgt, BEGAN, END]
  refine ⟨?_, ?_, ?_, ?_⟩
  · rw [runSched_append, runSched_cons, hstep2, runSched_append, runSched_cons]
    rw [htgtlast] at hsettle
    exact hsettle
  · rw [runSched_append, runSched_cons, hstep2, runSched_append, runSched_cons]
    have hpos := hsettle
    rw [htgtlast] at hpos
    show max 0 (min 1 _) = _
    rw [show ((runSched d E hs hh
        (schedStep d E hs hh
          (runSched d E hs hh
            { gs := g, eng := (evalBlock d E hs hh g t
                (runSched d E hs hh initDriver es1).1.eng).1 }
            (fs2.map SchedEvent.frame)).1 (SchedEvent.frame F)).1 []).1).eng.position =
      (schedStep d E hs hh
        (runSched d E hs hh
          { gs := g, eng := (evalBlock d E hs hh g t
              (runSched d E hs hh initDriver es1).1.eng).1 }
          (fs2.map SchedEvent.frame)).1 (SchedEvent.frame F)).1.eng.position from rfl]
    rw [hpos]
    cases updates.getLastD initial <;> norm_num
  · intro s k v
    exact objGet_objSet_self _ _ _
  · intro s k v m hm
    have hkey := List.find?_some hm
    have hmem := List.mem_of_find?_eq_some hm
    simp only [providerRender, List.mem_map] at hmem
    obtain ⟨p, hp, hpm⟩ := hmem
    have hkeq : m.key = k := by simpa using hkey
    rw [← hpm]
    show (objGet (setVisible s k v).1.visibleView p.1).getD false = v
    have hp1 : p.1 = k := by
      rw [← hkeq, ← hpm]
    rw [hp1]
    show (objGet (objSet s.visibleView k v) k).getD false = v
    rw [objGet_objSet_self]
    rfl

theorem setVisible_sequence_settles_witness :
    ([] : List SchedEvent).filterMap evSignal ++ [BEGAN] = visSignals false [true] ∧
    (runSched 240 id true true initDriver
        ([] ++ SchedEvent.setSignal BEGAN 1 ::
          (([] : List ℚ).map SchedEvent.frame ++ [SchedEvent.frame 241]))).1.eng.position =
      (if [true].getLastD false then 1 else 0) :=
  ⟨by decide,
   (setVisible_sequence_settles 240 id true true (by norm_num) rfl false [true]
      [] BEGAN 1 [] 241 (by decide)
      (by norm_num [List.chain'_cons, evTime])
      (by norm_num [List.getLastD])).1⟩

end ReModal
